import Mathlib

/-!
Verification of the graph-augmented retrieval and entity-resolution engine of
`app/rag/knowledge_graph/graph_store/tidb_graph_store.py` (class `TiDBGraphStore`).

The store logic is embedded as pure functions over an explicit `Store` state.
External collaborators of the core (spec sections 3 and 6) are passed in as an
`Env` record: the embedder, the cosine-distance evaluation provided by the
vector storage engine, the LLM-backed merge decision, and the swappable
relationship-scoring policy.  Metadata documents are modelled as association
lists of string keys and values; `DeepDiff`-equality of two documents is
modelled as structural equality.  SQL `ORDER BY distance LIMIT n` queries are
modelled as a stable sort by the distance key followed by `List.take`; ties in
`.first()` are resolved towards the earlier stored row, which is one of the
orders the storage engine may return.
-/

/-- `entity_type` column (`EntityType` in `app.models`, whose source is not under
`src/`).  Modelled from the spec: `kind ∈ {Original, Synopsis}` (section 3). -/
inductive EntityType where
  | original
  | synopsis
deriving DecidableEq

/-- A metadata document (arbitrary key/value JSON in the code), modelled as an
association list of string keys and string values. -/
abbrev MetaDoc := List (String × String)

/-- JSON key access `meta[k]`: the first value bound to `k`, if any. -/
def MetaDoc.get (m : MetaDoc) (k : String) : Option String :=
  (m.find? (fun kv => kv.1 == k)).map (fun kv => kv.2)

/-- Python `int(...)` on a rational value: truncation toward zero. -/
def pyInt (q : ℚ) : Int :=
  if 0 ≤ q then ⌊q⌋ else ⌈q⌉

/-- Candidate entity produced by the extractor (`app.rag.knowledge_graph.schema.Entity`
and `SynopsisEntity`, whose source is not under `src/`).  Modelled from the spec:
name, description, metadata document, plus `group_info` carried only by
Synopsis entities (section 3). -/
structure Entity where
  name : String
  description : String
  metadata : MetaDoc
  group_info : Option String := none
  is_synopsis : Bool := false
deriving DecidableEq

/-- Outcome of the merge-decision capability (`MergeDecider`, spec section 6).
`merged` carries the consolidated description and metadata used by
`get_or_create_entity`; `declined` is the decider returning `None`;
`failed` is the language-model call raising an exception. -/
inductive MergeResult where
  | merged (description : String) (metadata : MetaDoc)
  | declined
  | failed
deriving DecidableEq

/-- The only in-scope exception source of the resolution path: the merge
decision call raising (spec section 7, `MergeDeciderError`). -/
inductive MergeErr where
  | decider
deriving DecidableEq

/-- External capabilities consumed by the store (spec section 6), over an
abstract embedding-vector type `V`.
`dist` is the cosine-distance evaluation shared by the storage engine's
`func.cosine_distance` and the local helper `cosine_distance` (line 46 of the
source); `calc_score` stands for `calculate_relationship_score` of
`graph_store/helpers.py`, which is not under `src/`.  Modelled from the spec:
the blending formula is "an external, swappable policy" (section 4.3), so it is
kept abstract as a function of embedding distance, weight, source in-degree,
target out-degree, `alpha` and `with_degree`; the weight-coefficient table and
degree coefficient defaults of `helpers.py` are data of the policy. -/
structure Env (V : Type) where
  embed_entity_description : String → String → V
  embed_entity_metadata : MetaDoc → V
  embed_relationship_description : String → String → String → String → String → V
  embed_query : String → V
  dist : V → V → ℚ
  merge_decide : Entity → Entity → MergeResult
  calc_score : ℚ → Int → Nat → Nat → ℚ → Bool → ℚ

/-- An `entities` row (`app.models.Entity`, whose source is not under `src/`).
Modelled from the spec: id, name, description, description embedding, metadata
document, metadata embedding, optional synopsis group info, kind (section 3). -/
structure DBEntity (V : Type) where
  id : Nat
  name : String
  description : String
  description_vec : V
  meta : MetaDoc
  meta_vec : V
  synopsis_info : Option String
  entity_type : EntityType
deriving DecidableEq

/-- A `relationships` row (`app.models.Relationship`, whose source is not under
`src/`).  Modelled from the spec: id, endpoint entity ids, description and its
embedding, metadata with provenance, non-negative-by-convention weight, and a
last-modified timestamp (section 3). -/
structure DBRelationship (V : Type) where
  id : Nat
  source_entity_id : Nat
  target_entity_id : Nat
  description : String
  description_vec : V
  meta : MetaDoc
  weight : Int
  document_id : Option String
  chunk_id : Option String
  last_modified_at : Nat
deriving DecidableEq

/-- A `chunks` row (`app.models.Chunk`, whose source is not under `src/`).
Modelled from the spec: keyed text plus metadata, used only by the optional
`with_chunks` augmentation (section 6). -/
structure DBChunk where
  id : String
  text : String
  document_id : String
  meta : MetaDoc
deriving DecidableEq

/-- The committed state of the storage engine as seen by the store: the three
row tables plus fresh-id counters standing for the autoincrement keys. -/
structure Store (V : Type) where
  entities : List (DBEntity V)
  relationships : List (DBRelationship V)
  chunks : List DBChunk
  next_entity_id : Nat
  next_relationship_id : Nat
deriving DecidableEq

variable {V : Type} [DecidableEq V]

/-- ORM lookup of an entity row by primary key. -/
def entity_by_id (s : Store V) (i : Nat) : Option (DBEntity V) :=
  s.entities.find? (fun e => e.id == i)

/-- First element of the list minimizing the key `f` (later elements win only
by a strictly smaller key). -/
def argminBy (f : α → ℚ) : List α → Option α
  | [] => none
  | x :: xs =>
    match argminBy f xs with
    | none => some x
    | some y => if f y < f x then some y else some x

/-- The `ORDER BY cosine_distance ASC ... .first()` lookup of
`get_or_create_entity`: the stored entity with the candidate's name and kind
nearest to the candidate's description embedding. -/
def nearest_entity (env : Env V) (s : Store V) (name : String) (etype : EntityType)
    (vec : V) : Option (DBEntity V) :=
  argminBy (fun e => env.dist e.description_vec vec)
    (s.entities.filter (fun e => e.name == name && e.entity_type == etype))

/-- The new row built by the fall-through creation block of
`get_or_create_entity` (lines 376-391 of the source). -/
def mk_db_entity (env : Env V) (s : Store V) (entity : Entity) (vec : V)
    (etype : EntityType) : DBEntity V :=
  { id := s.next_entity_id
    name := entity.name
    description := entity.description
    description_vec := vec
    meta := entity.metadata
    meta_vec := env.embed_entity_metadata entity.metadata
    synopsis_info := if etype = EntityType.synopsis then entity.group_info else none
    entity_type := etype }

/-- Insert-and-commit of a freshly created entity row. -/
def create_entity_row (env : Env V) (s : Store V) (entity : Entity) (vec : V)
    (etype : EntityType) : DBEntity V × Store V :=
  let db_obj := mk_db_entity env s entity vec etype
  let s' : Store V :=
    { s with entities := s.entities ++ [db_obj], next_entity_id := s.next_entity_id + 1 }
  (db_obj, s')

/-- Commit of a mutated ORM entity object: the row with the same id is
replaced. -/
def update_entity (s : Store V) (e : DBEntity V) : Store V :=
  { s with entities := s.entities.map (fun x => if x.id = e.id then e else x) }

/-- `TiDBGraphStore.get_or_create_entity` (lines 299-395 of the source), with
the configured `description_cosine_distance_threshold` passed as `thr`.
The merge-decision call of `_try_merge_entities` carries no exception handling
in the source, so a failing decider surfaces as `Except.error`. -/
def get_or_create_entity (env : Env V) (thr : ℚ) (s : Store V) (entity : Entity) :
    Except MergeErr (DBEntity V × Store V) :=
  let entity_type := if entity.is_synopsis then EntityType.synopsis else EntityType.original
  let entity_description_vec := env.embed_entity_description entity.name entity.description
  match nearest_entity env s entity.name entity_type entity_description_vec with
  | some db_obj =>
    if env.dist db_obj.description_vec entity_description_vec < thr then
      if db_obj.description = entity.description ∧ db_obj.name = entity.name ∧
          db_obj.meta = entity.metadata then
        .ok (db_obj, s)
      else if entity_type = EntityType.original then
        match env.merge_decide
            { name := db_obj.name, description := db_obj.description,
              metadata := db_obj.meta } entity with
        | .failed => .error .decider
        | .merged d m =>
          let updated := { db_obj with
            description := d
            meta := m
            description_vec := env.embed_entity_description db_obj.name d
            meta_vec := env.embed_entity_metadata m }
          .ok (updated, update_entity s updated)
        | .declined =>
          .ok (create_entity_row env s entity entity_description_vec entity_type)
      else
        .ok (create_entity_row env s entity entity_description_vec entity_type)
    else
      .ok (create_entity_row env s entity entity_description_vec entity_type)
  | none =>
    .ok (create_entity_row env s entity entity_description_vec entity_type)

/-- One row of the `entities_df` dataframe consumed by `save` (columns `name`,
`description`, `meta`). -/
structure EntityRow where
  name : String
  description : String
  meta : MetaDoc
deriving DecidableEq

/-- One row of the `relationships_df` dataframe consumed by `save` (columns
`source_entity`, `source_entity_description`, `target_entity`,
`target_entity_description`, `relationship_desc`, `meta`). -/
structure RelRow where
  source_entity : String
  source_entity_description : String
  target_entity : String
  target_entity_description : String
  relationship_desc : String
  meta : MetaDoc
deriving DecidableEq

/-- The batch-local `entities_name_map` of `save`: for each declared name, the
ids of the rows resolved for it, in resolution order.  Ids are stored rather
than row snapshots because the Python dict holds live ORM objects that track
the committed rows. -/
abbrev EntitiesNameMap := List (String × List Nat)

/-- `defaultdict(list)` append: add a resolved id under its declared name. -/
def EntitiesNameMap.push (m : EntitiesNameMap) (name : String) (i : Nat) :
    EntitiesNameMap :=
  match m with
  | [] => [(name, [i])]
  | (k, is) :: rest =>
    if k = name then (k, is ++ [i]) :: rest
    else (k, is) :: EntitiesNameMap.push rest name i

/-- Lookup of `entities_name_map.get(name, [])`, dereferenced against the
current store. -/
def EntitiesNameMap.rows (m : EntitiesNameMap) (s : Store V) (name : String) :
    List (DBEntity V) :=
  match m.find? (fun kv => kv.1 == name) with
  | none => []
  | some kv => kv.2.filterMap (fun i => entity_by_id s i)

/-- `TiDBGraphStore.create_relationship` (lines 271-297 of the source): stage a
new relationship row for the two resolved endpoint rows.  The row's weight
column is left at the model default 0 and `last_modified_at` at the default
timestamp, matching columns `save` never sets. -/
def create_relationship (env : Env V) (s : Store V) (source_entity target_entity : DBEntity V)
    (relationship_desc : String) (relationship_meatadata : MetaDoc) : Store V :=
  let row : DBRelationship V :=
    { id := s.next_relationship_id
      source_entity_id := source_entity.id
      target_entity_id := target_entity.id
      description := relationship_desc
      description_vec := env.embed_relationship_description source_entity.name
        source_entity.description target_entity.name target_entity.description
        relationship_desc
      meta := relationship_meatadata
      weight := 0
      document_id := relationship_meatadata.get "document_id"
      chunk_id := relationship_meatadata.get "chunk_id"
      last_modified_at := 0 }
  { s with relationships := s.relationships ++ [row],
           next_relationship_id := s.next_relationship_id + 1 }

/-- The entity-resolution pass of `save` (lines 217-227 of the source): resolve
each `entities_df` row through `get_or_create_entity`, building
`entities_name_map`. -/
def resolve_entity_rows (env : Env V) (thr : ℚ) :
    List EntityRow → Store V → EntitiesNameMap →
    Except MergeErr (Store V × EntitiesNameMap)
  | [], s, m => .ok (s, m)
  | row :: rest, s, m =>
    match get_or_create_entity env thr s
        { name := row.name, description := row.description, metadata := row.meta } with
    | .error e => .error e
    | .ok (db, s') => resolve_entity_rows env thr rest s' (m.push row.name db.id)

/-- `_find_or_create_entity_for_relation` (lines 229-248 of the source): prefer
a batch-local entity whose embedding is within threshold of the stated endpoint
description, else resolve/create with a `need-revised` status tag. -/
def find_or_create_entity_for_relation (env : Env V) (thr : ℚ) (s : Store V)
    (m : EntitiesNameMap) (name description : String) :
    Except MergeErr (DBEntity V × Store V) :=
  let emb := env.embed_entity_description name description
  match (m.rows s name).find? (fun e => env.dist e.description_vec emb < thr) with
  | some e => .ok (e, s)
  | none =>
    get_or_create_entity env thr s
      { name := name, description := description,
        metadata := [("status", "need-revised")] }

/-- The relationship pass of `save` (lines 250-268 of the source): resolve both
endpoints of each `relationships_df` row and stage the relationship. -/
def ingest_relationship_rows (env : Env V) (thr : ℚ) :
    List RelRow → Store V → EntitiesNameMap → Except MergeErr (Store V)
  | [], s, _ => .ok s
  | row :: rest, s, m =>
    match find_or_create_entity_for_relation env thr s m
        row.source_entity row.source_entity_description with
    | .error e => .error e
    | .ok (source_entity, s1) =>
      match find_or_create_entity_for_relation env thr s1 m
          row.target_entity row.target_entity_description with
      | .error e => .error e
      | .ok (target_entity, s2) =>
        ingest_relationship_rows env thr rest
          (create_relationship env s2 source_entity target_entity
            row.relationship_desc row.meta) m

/-- The value the storage engine computes for
`cast(DBRelationship.meta["chunk_id"], String)` (line 209 of the source): on
PostgreSQL, casting a JSON value to a character type yields its JSON text
representation, which for a JSON string keeps the surrounding quotes (the
unquoting accessor would be `->>`/`astext`, which the source does not use); a
missing key yields SQL NULL, modelled as `none`. -/
def json_text : Option String → Option String
  | some sval => some ("\"" ++ sval ++ "\"")
  | none => none

/-- `TiDBGraphStore.save` (lines 199-269 of the source): the per-chunk ingest
batch.  Returns the committed store; a merge-decider exception raised during
entity resolution propagates.  The idempotency guard compares the JSON-quoted
cast of `meta["chunk_id"]` with the plain `str(chunk_id)` (line 209), so for
ordinary string chunk ids the two sides can never be equal. -/
def save (env : Env V) (thr : ℚ) (s : Store V) (chunk_id : String)
    (entities_df : List EntityRow) (relationships_df : List RelRow) :
    Except MergeErr (Store V) :=
  if entities_df = [] ∨ relationships_df = [] then .ok s
  else if s.relationships.any
      (fun r => json_text (r.meta.get "chunk_id") == some chunk_id) then .ok s
  else
    match resolve_entity_rows env thr entities_df s [] with
    | .error e => .error e
    | .ok (s1, m) => ingest_relationship_rows env thr relationships_df s1 m

/-- Stable insertion into an ascending-by-key list: the inserted element goes
before the first element whose key is not smaller. -/
def insert_asc (f : α → ℚ) (x : α) : List α → List α
  | [] => [x]
  | y :: ys => if f y < f x then y :: insert_asc f x ys else x :: y :: ys

/-- Stable ascending sort by a rational key (`ORDER BY key ASC`). -/
def sort_asc (f : α → ℚ) : List α → List α
  | [] => []
  | x :: xs => insert_asc f x (sort_asc f xs)

/-- Stable insertion into a descending-by-key list. -/
def insert_desc (f : α → ℚ) (x : α) : List α → List α
  | [] => [x]
  | y :: ys => if f x < f y then y :: insert_desc f x ys else x :: y :: ys

/-- Stable descending sort by a rational key (`list.sort(key=…, reverse=True)`). -/
def sort_desc (f : α → ℚ) : List α → List α
  | [] => []
  | x :: xs => insert_desc f x (sort_desc f xs)

/-- The inner subquery of `search_relationships_weight` (lines 769-781 of the
source): every relationship paired with its embedding distance to the query
embedding, ordered by ascending distance, limited to `limit * 10` rows. -/
def candidate_rows (env : Env V) (s : Store V) (v : V) (limit : Nat) :
    List (DBRelationship V × ℚ) :=
  (sort_asc (fun p => p.2)
    (s.relationships.map (fun r => (r, env.dist r.description_vec v)))).take (limit * 10)

/-- The conditions of the outer query that really constrain the fetched
candidate rows (lines 785-829 of the source): the non-negative-weight filter
and the metadata equality filters are written against `relationships_alias`,
and the distance-range filter (applied only when the range differs from the
full range `(0, 1)`) against the subquery columns; the surviving rows ordered
by ascending embedding distance. -/
def alias_candidate_rows (env : Env V) (s : Store V) (v : V)
    (distance_range : ℚ × ℚ) (limit : Nat) (relationship_meta_filters : MetaDoc) :
    List (DBRelationship V × ℚ) :=
  let base := candidate_rows env s v limit
  let f1 := base.filter (fun p => 0 ≤ p.1.weight)
  let f2 := relationship_meta_filters.foldl
    (fun acc kv => acc.filter (fun p => p.1.meta.get kv.1 == some kv.2)) f1
  let f3 := if distance_range = ((0 : ℚ), (1 : ℚ)) then f2
    else f2.filter (fun p => distance_range.1 ≤ p.2 ∧ p.2 ≤ distance_range.2)
  sort_asc (fun p => p.2) f3

/-- The outer query of `search_relationships_weight` (lines 785-829 of the
source).  The visited-relationship and visited-entity conditions (lines
803-804 and 820-821) are written against the base `DBRelationship` table, not
against `relationships_alias`, so when either set is non-empty they add the
base table as a second FROM element and the statement becomes a cross join:
every alias candidate row is paired with every base row satisfying those
conditions, and no candidate is excluded.  Each alias row therefore appears
once per matching base row (duplicates of a row share its distance, so
consecutive duplication is one of the orders `ORDER BY embedding_distance`
may return), and `LIMIT limit` cuts the multiplied row list. -/
def rel_query (env : Env V) (s : Store V) (v : V) (visited_relationships : Finset Nat)
    (visited_entities : Finset Nat) (distance_range : ℚ × ℚ) (limit : Nat)
    (relationship_meta_filters : MetaDoc) : List (DBRelationship V × ℚ) :=
  let rows := alias_candidate_rows env s v distance_range limit
    relationship_meta_filters
  if visited_relationships = ∅ ∧ visited_entities = ∅ then rows.take limit
  else
    let cross_count := (s.relationships.filter (fun b =>
      (visited_relationships = ∅ ∨ b.id ∉ visited_relationships) ∧
      (visited_entities = ∅ ∨ b.source_entity_id ∈ visited_entities))).length
    (rows.bind (fun p => List.replicate cross_count p)).take limit

/-- `TiDBGraphStore.fetch_entity_degrees` (lines 701-740 of the source): the
grouped in/out relationship counts for the requested entity ids (ids outside
the request keep the zero initialisation). -/
def fetch_entity_degrees (s : Store V) (entity_ids : Finset Nat) (i : Nat) : Nat × Nat :=
  if i ∈ entity_ids then
    ((s.relationships.filter (fun r => r.target_entity_id == i)).length,
     (s.relationships.filter (fun r => r.source_entity_id == i)).length)
  else (0, 0)

/-- A Python `set` is modelled as a duplicate-free list; `set.add` keeps the
first occurrence. -/
def set_add [DecidableEq α] (s : List α) (x : α) : List α :=
  if x ∈ s then s else s ++ [x]

/-- Python `set(iterable)`. -/
def set_of [DecidableEq α] (l : List α) : List α :=
  l.foldl set_add []

/-- Python `set.update(other)`. -/
def set_union [DecidableEq α] (s t : List α) : List α :=
  t.foldl set_add s

/-- The entity set accumulated from both endpoints of each returned
relationship (lines 833-836 and 877-880 of the source); the joined ORM
endpoint objects are looked up by id. -/
def endpoint_set (s : Store V) (rels : List (DBRelationship V)) : List (DBEntity V) :=
  rels.foldl (fun acc r =>
    let acc1 := match entity_by_id s r.source_entity_id with
      | some e => set_add acc e
      | none => acc
    match entity_by_id s r.target_entity_id with
      | some e => set_add acc1 e
      | none => acc1) []

/-- Result of `search_relationships_weight`: the relationship and entity sets,
plus the number of `fetch_entity_degrees` round trips the call performed. -/
structure SearchOut (V : Type) where
  rels : List (DBRelationship V)
  ents : List (DBEntity V)
  degree_fetches : Nat

/-- `TiDBGraphStore.search_relationships_weight` (lines 742-882 of the source).
If at most `rank_n` candidates were fetched they are returned verbatim with
their incident entities; otherwise candidates are scored via the scoring
policy (with degrees fetched only when `with_degree`), sorted descending by
score, and the top `rank_n` returned. -/
def search_relationships_weight (env : Env V) (s : Store V) (v : V)
    (visited_relationships : Finset Nat) (visited_entities : Finset Nat)
    (distance_range : ℚ × ℚ := ((0 : ℚ), (1 : ℚ))) (limit : Nat := 100)
    (alpha : ℚ := 1) (rank_n : Nat := 10) (with_degree : Bool := false)
    (relationship_meta_filters : MetaDoc := []) : SearchOut V :=
  let relationships := rel_query env s v visited_relationships visited_entities
    distance_range limit relationship_meta_filters
  if relationships.length ≤ rank_n then
    let relationship_set := set_of (relationships.map Prod.fst)
    { rels := relationship_set, ents := endpoint_set s relationship_set,
      degree_fetches := 0 }
  else
    let entity_ids : Finset Nat := (relationships.map (fun p => p.1.source_entity_id)).toFinset ∪
      (relationships.map (fun p => p.1.target_entity_id)).toFinset
    let degrees := fetch_entity_degrees s entity_ids
    let ranked := relationships.map (fun p =>
      (p.1, env.calc_score p.2 p.1.weight
        (if with_degree then (degrees p.1.source_entity_id).1 else 0)
        (if with_degree then (degrees p.1.target_entity_id).2 else 0)
        alpha with_degree))
    let relationship_set := set_of (((sort_desc (fun q => q.2) ranked).take rank_n).map Prod.fst)
    { rels := relationship_set,
      ents := endpoint_set s relationship_set,
      degree_fetches := if with_degree then 1 else 0 }

/-- `TiDBGraphStore.fetch_similar_entities` (lines 923-949 of the source): the
`top_k` stored entities of the given kind nearest to the embedding, as a set. -/
def fetch_similar_entities (env : Env V) (s : Store V) (v : V) (top_k : Nat)
    (entity_type : EntityType) : List (DBEntity V) :=
  set_of ((sort_asc (fun e => env.dist e.description_vec v)
    (s.entities.filter (fun e => e.entity_type == entity_type))).take top_k)

/-- An emitted entity record of `retrieve_with_weight` (lines 562-571 and
662-671 of the source). -/
structure EntityOut where
  id : Nat
  name : String
  description : String
  meta : Option MetaDoc
  entity_type : EntityType
deriving DecidableEq

/-- An emitted relationship record of `retrieve_with_weight` (lines 572-584 and
672-684 of the source). -/
structure RelOut where
  id : Nat
  source_entity_id : Nat
  target_entity_id : Nat
  description : String
  rag_description : String
  meta : MetaDoc
  weight : Int
  last_modified_at : Nat
deriving DecidableEq

/-- An emitted chunk record of `retrieve_with_weight`. -/
structure ChunkOut where
  text : String
  link : String
  meta : MetaDoc
deriving DecidableEq

/-- The emitted dictionary for one entity row. -/
def entity_out (include_meta : Bool) (e : DBEntity V) : EntityOut :=
  { id := e.id, name := e.name, description := e.description,
    meta := if include_meta then some e.meta else none,
    entity_type := e.entity_type }

/-- The emitted dictionary for one relationship row, with the formatted
`"source -> description -> target"` string built from the joined endpoint
rows. -/
def rel_out (s : Store V) (r : DBRelationship V) : RelOut :=
  { id := r.id, source_entity_id := r.source_entity_id,
    target_entity_id := r.target_entity_id, description := r.description,
    rag_description :=
      ((entity_by_id s r.source_entity_id).map (fun e => e.name)).getD "" ++ " -> " ++
      r.description ++ " -> " ++
      ((entity_by_id s r.target_entity_id).map (fun e => e.name)).getD "",
    meta := r.meta, weight := r.weight, last_modified_at := r.last_modified_at }

/-- `DEFAULT_RANGE_SEARCH_CONFIG` of `graph_store/helpers.py`, which is not
under `src/`.  Modelled from the spec: "a fixed ordered list of
`(range, target_ratio)` buckets" partitioning the unit distance range, whose
final catch-all bucket has target weight 1 and is exempt from progress
accounting (section 4.4). -/
def DEFAULT_RANGE_SEARCH_CONFIG : List ((ℚ × ℚ) × ℚ) :=
  [((0, 1/4), 1/2), ((1/4, 1/2), 1/4), ((1/2, 3/4), 1/4), ((3/4, 1), 1)]

/-- The visited/accumulated sets threaded through the expansion hops of
`retrieve_with_weight` (lines 602-605 of the source). -/
structure HopState (V : Type) where
  all_relationships : List (DBRelationship V)
  all_entities : List (DBEntity V)
  visited_entities : Finset Nat
  visited_relationships : Finset Nat

/-- The bucket-loop accumulator of one expansion hop (lines 608-610 of the
source): the running state, `actual_number`, `progress`, and whether the
`break` on an exhausted budget has fired. -/
structure BucketAcc (V : Type) where
  st : HopState V
  actual_number : Nat
  progress : ℚ
  stopped : Bool

/-- The `expected_number` allocation of one bucket (lines 614-625 of the
source): the bucket's proportional share of the per-hop budget of 10, folded
with the carried cumulative progress, clamped to the remaining budget. -/
def expected_alloc (progress : ℚ) (actual_number : Nat) (srat : ℚ) : Int :=
  let remaining_number : Int := 10 - (actual_number : Int)
  let expected0 : Int :=
    if progress * 10 > (actual_number : ℚ) then
      pyInt ((srat + progress) * 10 - (actual_number : ℚ))
    else pyInt (srat * 10)
  if expected0 > remaining_number then remaining_number else expected0

/-- One bucket iteration of the expansion hop (lines 611-649 of the source):
allocate a share of the per-hop budget of 10 from the bucket's target weight
and the carried progress, stop when the budget is exhausted, otherwise search
the bucket's distance range from the visited frontier and merge the results. -/
def bucket_step (env : Env V) (s : Store V) (v : V) (with_degree : Bool)
    (relationship_meta_filters : MetaDoc) (acc : BucketAcc V)
    (search_config : (ℚ × ℚ) × ℚ) : BucketAcc V :=
  if acc.stopped then acc
  else
    let srat := search_config.2
    let search_distance_range := search_config.1
    let remaining_number : Int := 10 - (acc.actual_number : Int)
    let expected_number : Int := expected_alloc acc.progress acc.actual_number srat
    if remaining_number ≤ 0 then { acc with stopped := true }
    else
      let out := search_relationships_weight env s v acc.st.visited_relationships
        acc.st.visited_entities search_distance_range 100 1 expected_number.toNat
        with_degree relationship_meta_filters
      { st :=
          { all_relationships := set_union acc.st.all_relationships out.rels
            all_entities := set_union acc.st.all_entities out.ents
            visited_entities :=
              acc.st.visited_entities ∪ (out.ents.map (fun e => e.id)).toFinset
            visited_relationships :=
              acc.st.visited_relationships ∪ (out.rels.map (fun r => r.id)).toFinset }
        actual_number := acc.actual_number + out.rels.length
        progress := if srat ≠ 1 then acc.progress + srat else acc.progress
        stopped := false }

/-- One full expansion hop: the bucket loop over
`DEFAULT_RANGE_SEARCH_CONFIG` with a fresh budget (one iteration of the
`for _ in range(depth - 1)` loop, lines 607-649 of the source). -/
def hop_step (env : Env V) (s : Store V) (v : V) (with_degree : Bool)
    (relationship_meta_filters : MetaDoc) (st : HopState V) : HopState V :=
  (DEFAULT_RANGE_SEARCH_CONFIG.foldl
    (bucket_step env s v with_degree relationship_meta_filters)
    { st := st, actual_number := 0, progress := 0, stopped := false }).st

/-- `TiDBGraphStore.retrieve_with_weight` (lines 531-697 of the source): the
no-query full snapshot, or the seeded, depth-bounded weighted expansion with
synopsis augmentation and optional chunk resolution. -/
def retrieve_with_weight (env : Env V) (s : Store V) (query : Option String)
    (embedding : Option V) (depth : Nat := 2) (include_meta : Bool := false)
    (with_degree : Bool := false) (with_chunks : Bool := true)
    (relationship_meta_filters : MetaDoc := []) :
    List EntityOut × List RelOut × List ChunkOut :=
  if embedding = none ∧ query = none then
    let all_entities := s.entities
    let all_relationships := s.relationships
    let related_doc_ids : Finset String := (all_relationships.filterMap
      (fun r => r.meta.get "doc_id")).toFinset
    let chunks :=
      if with_chunks then
        if related_doc_ids = ∅ then []
        else (s.chunks.filter (fun c => c.id ∈ related_doc_ids)).map
          (fun c => ChunkOut.mk c.text c.document_id c.meta)
      else []
    (all_entities.map (entity_out include_meta),
     all_relationships.map (rel_out s), chunks)
  else
    let v := match embedding with
      | some v => v
      | none => env.embed_query (query.getD "")
    let seed := search_relationships_weight env s v ∅ ∅ ((0 : ℚ), (1 : ℚ)) 100 1 10
      with_degree relationship_meta_filters
    let st0 : HopState V :=
      { all_relationships := seed.rels, all_entities := seed.ents,
        visited_entities := (seed.ents.map (fun e => e.id)).toFinset,
        visited_relationships := (seed.rels.map (fun r => r.id)).toFinset }
    let stN :=
      (fun st => hop_step env s v with_degree relationship_meta_filters st)^[depth - 1] st0
    let synopsis_entities := fetch_similar_entities env s v 2 EntityType.synopsis
    let all_entities := set_union stN.all_entities synopsis_entities
    let all_relationships := stN.all_relationships
    let related_doc_ids : Finset String := ((all_relationships.filter
      (fun r => (r.meta.get "doc_id").isSome)).map
      (fun r => (r.meta.get "doc_id").getD "")).toFinset
    let chunks :=
      if with_chunks then
        (s.chunks.filter (fun c => c.id ∈ related_doc_ids)).map
          (fun c => ChunkOut.mk c.text c.document_id c.meta)
      else []
    (all_entities.map (entity_out include_meta),
     all_relationships.map (rel_out s), chunks)

/-- Run one `get_or_create_entity` and keep the resulting store (the store is
unchanged when the call raises). -/
def run_resolve (env : Env V) (thr : ℚ) (s : Store V) (e : Entity) : Store V :=
  match get_or_create_entity env thr s e with
  | .ok (_, s') => s'
  | .error _ => s

/-- The id returned by one `get_or_create_entity`, if it returned. -/
def resolve_id (env : Env V) (thr : ℚ) (s : Store V) (e : Entity) : Option Nat :=
  match get_or_create_entity env thr s e with
  | .ok (db, _) => some db.id
  | .error _ => none

/-- Run one `save` and keep the resulting store. -/
def run_save (env : Env V) (thr : ℚ) (s : Store V) (chunk_id : String)
    (entities_df : List EntityRow) (relationships_df : List RelRow) : Store V :=
  match save env thr s chunk_id entities_df relationships_df with
  | .ok s' => s'
  | .error _ => s

/-- Whether a resolution call surfaced the merge-decider exception. -/
def is_decider_error : Except MergeErr α → Bool
  | .error .decider => true
  | _ => false

/-- The deduplication invariant of spec section 3: no two distinct Original
rows share a name while their description embeddings are within the cosine
distance threshold. -/
def dedup_ok (env : Env V) (thr : ℚ) (s : Store V) : Bool :=
  s.entities.all (fun e1 => s.entities.all (fun e2 =>
    e1.id == e2.id ||
    !(e1.name == e2.name && e1.entity_type == EntityType.original &&
      e2.entity_type == EntityType.original &&
      decide (env.dist e1.description_vec e2.description_vec < thr))))

/-- The number of stored Original rows exactly matching a draft's name,
description and metadata. -/
def count_exact (s : Store V) (e : Entity) : Nat :=
  (s.entities.filter (fun x => x.name == e.name && x.description == e.description &&
    x.meta == e.metadata && x.entity_type == EntityType.original)).length

theorem set_add_length_le [DecidableEq α] (s : List α) (x : α) :
    (set_add s x).length ≤ s.length + 1 := by
  unfold set_add
  split <;> simp

theorem foldl_set_add_length_le [DecidableEq α] (l s : List α) :
    (l.foldl set_add s).length ≤ s.length + l.length := by
  induction l generalizing s with
  | nil => simp
  | cons x xs ih =>
    simp only [List.foldl_cons, List.length_cons]
    have h1 := ih (set_add s x)
    have h2 := set_add_length_le s x
    omega

theorem set_union_length_le [DecidableEq α] (s t : List α) :
    (set_union s t).length ≤ s.length + t.length :=
  foldl_set_add_length_le t s

theorem set_of_length_le [DecidableEq α] (l : List α) :
    (set_of l).length ≤ l.length := by
  have h := foldl_set_add_length_le l ([] : List α)
  simpa [set_of] using h

theorem mem_set_add [DecidableEq α] (s : List α) (x a : α) :
    a ∈ set_add s x ↔ a ∈ s ∨ a = x := by
  unfold set_add
  split
  case isTrue h =>
    simp only [iff_def]
    constructor
    · exact fun hm => Or.inl hm
    · rintro (hm | rfl) <;> simp_all
  case isFalse h => simp

theorem mem_foldl_set_add [DecidableEq α] (l s : List α) (a : α) :
    a ∈ l.foldl set_add s ↔ a ∈ s ∨ a ∈ l := by
  induction l generalizing s with
  | nil => simp
  | cons x xs ih =>
    simp only [List.foldl_cons, ih (set_add s x), mem_set_add, List.mem_cons]
    tauto

theorem mem_set_of [DecidableEq α] (l : List α) (a : α) :
    a ∈ set_of l ↔ a ∈ l := by
  simp [set_of, mem_foldl_set_add]

theorem mem_set_union [DecidableEq α] (s t : List α) (a : α) :
    a ∈ set_union s t ↔ a ∈ s ∨ a ∈ t :=
  mem_foldl_set_add t s a

theorem set_of_toFinset [DecidableEq α] (l : List α) :
    (set_of l).toFinset = l.toFinset := by
  ext a
  simp [mem_set_of]

theorem length_insert_asc (f : α → ℚ) (x : α) (l : List α) :
    (insert_asc f x l).length = l.length + 1 := by
  induction l with
  | nil => rfl
  | cons y ys ih =>
    unfold insert_asc
    split <;> simp [ih]

theorem length_sort_asc (f : α → ℚ) (l : List α) :
    (sort_asc f l).length = l.length := by
  induction l with
  | nil => rfl
  | cons x xs ih => simp [sort_asc, length_insert_asc, ih]

theorem mem_insert_asc (f : α → ℚ) (x a : α) (l : List α) :
    a ∈ insert_asc f x l ↔ a = x ∨ a ∈ l := by
  induction l with
  | nil => simp [insert_asc]
  | cons y ys ih =>
    unfold insert_asc
    split <;> simp_all <;> tauto

theorem mem_sort_asc (f : α → ℚ) (a : α) (l : List α) :
    a ∈ sort_asc f l ↔ a ∈ l := by
  induction l with
  | nil => simp [sort_asc]
  | cons x xs ih => simp [sort_asc, mem_insert_asc, ih]

theorem length_insert_desc (f : α → ℚ) (x : α) (l : List α) :
    (insert_desc f x l).length = l.length + 1 := by
  induction l with
  | nil => rfl
  | cons y ys ih =>
    unfold insert_desc
    split <;> simp [ih]

theorem length_sort_desc (f : α → ℚ) (l : List α) :
    (sort_desc f l).length = l.length := by
  induction l with
  | nil => rfl
  | cons x xs ih => simp [sort_desc, length_insert_desc, ih]

theorem mem_insert_desc (f : α → ℚ) (x a : α) (l : List α) :
    a ∈ insert_desc f x l ↔ a = x ∨ a ∈ l := by
  induction l with
  | nil => simp [insert_desc]
  | cons y ys ih =>
    unfold insert_desc
    split <;> simp_all <;> tauto

theorem mem_sort_desc (f : α → ℚ) (a : α) (l : List α) :
    a ∈ sort_desc f l ↔ a ∈ l := by
  induction l with
  | nil => simp [sort_desc]
  | cons x xs ih => simp [sort_desc, mem_insert_desc, ih]

theorem set_of_map_length_le [DecidableEq α] (l : List (α × β)) (n : Nat)
    (h : l.length ≤ n) : (set_of (l.map Prod.fst)).length ≤ n := by
  have h1 := set_of_length_le (l.map Prod.fst)
  simp only [List.length_map] at h1
  omega

theorem set_of_take_map_length_le [DecidableEq α] (l : List (α × β)) (n : Nat) :
    (set_of ((l.take n).map Prod.fst)).length ≤ n := by
  have h1 := set_of_length_le ((l.take n).map Prod.fst)
  simp only [List.length_map, List.length_take] at h1
  exact le_trans h1 (Nat.min_le_left _ _)

theorem search_rels_length_le_rank (env : Env V) (s : Store V) (v : V)
    (vr ve : Finset Nat) (dr : ℚ × ℚ) (limit : Nat) (alpha : ℚ) (rank_n : Nat)
    (wd : Bool) (f : MetaDoc) :
    (search_relationships_weight env s v vr ve dr limit alpha rank_n wd f).rels.length ≤
      rank_n := by
  simp only [search_relationships_weight]
  split
  case isTrue h => exact set_of_map_length_le _ _ h
  case isFalse h => exact set_of_take_map_length_le _ _

theorem expected_alloc_le_remaining (progress : ℚ) (actual_number : Nat) (srat : ℚ) :
    expected_alloc progress actual_number srat ≤ 10 - (actual_number : Int) := by
  simp only [expected_alloc]
  split
  case isTrue h => omega
  case isFalse h => omega

theorem bucket_step_inv (env : Env V) (s : Store V) (v : V) (wd : Bool)
    (f : MetaDoc) (base : Nat) (acc : BucketAcc V) (cfg : (ℚ × ℚ) × ℚ)
    (h1 : acc.st.all_relationships.length ≤ base + acc.actual_number)
    (h2 : acc.actual_number ≤ 10) :
    (bucket_step env s v wd f acc cfg).st.all_relationships.length ≤
      base + (bucket_step env s v wd f acc cfg).actual_number ∧
    (bucket_step env s v wd f acc cfg).actual_number ≤ 10 := by
  have he := expected_alloc_le_remaining acc.progress acc.actual_number cfg.2
  have hs := search_rels_length_le_rank env s v acc.st.visited_relationships
    acc.st.visited_entities cfg.1 100 1
    (expected_alloc acc.progress acc.actual_number cfg.2).toNat wd f
  have hu := set_union_length_le acc.st.all_relationships
    (search_relationships_weight env s v acc.st.visited_relationships
      acc.st.visited_entities cfg.1 100 1
      (expected_alloc acc.progress acc.actual_number cfg.2).toNat wd f).rels
  simp only [bucket_step]
  split
  case isTrue hstop => exact ⟨h1, h2⟩
  case isFalse hstop =>
    split
    case isTrue hrem => exact ⟨h1, h2⟩
    case isFalse hrem =>
      refine ⟨?_, ?_⟩ <;> simp only [] <;> omega

theorem foldl_bucket_inv (env : Env V) (s : Store V) (v : V) (wd : Bool)
    (f : MetaDoc) (base : Nat) (l : List ((ℚ × ℚ) × ℚ)) (acc : BucketAcc V)
    (h1 : acc.st.all_relationships.length ≤ base + acc.actual_number)
    (h2 : acc.actual_number ≤ 10) :
    (l.foldl (bucket_step env s v wd f) acc).st.all_relationships.length ≤
      base + (l.foldl (bucket_step env s v wd f) acc).actual_number ∧
    (l.foldl (bucket_step env s v wd f) acc).actual_number ≤ 10 := by
  induction l generalizing acc with
  | nil => exact ⟨h1, h2⟩
  | cons cfg rest ih =>
    simp only [List.foldl_cons]
    have hstep := bucket_step_inv env s v wd f base acc cfg h1 h2
    exact ih (bucket_step env s v wd f acc cfg) hstep.1 hstep.2

/-- C8: within one expansion hop of `retrieve_with_weight` (one iteration of
the `depth - 1` loop), the bucket loop's budget accounting together with the
scorer's `rank_n` cap adds at most 10 relationships to the accumulated result
set. -/
theorem hop_budget_bound (env : Env V) (s : Store V) (v : V) (wd : Bool)
    (f : MetaDoc) (st : HopState V) :
    (hop_step env s v wd f st).all_relationships.length ≤
      st.all_relationships.length + 10 := by
  have h := foldl_bucket_inv env s v wd f st.all_relationships.length
    DEFAULT_RANGE_SEARCH_CONFIG
    { st := st, actual_number := 0, progress := 0, stopped := false }
    (by simp) (by simp)
  simp only [hop_step]
  omega

/-- C6: when the fetched candidate list has at most `rank_n` rows,
`search_relationships_weight` returns exactly the candidate set
(order-independent), the entity set is exactly the endpoints of those
relationships, and no degree fetch is performed. -/
theorem search_short_circuit (env : Env V) (s : Store V) (v : V)
    (vr ve : Finset Nat) (dr : ℚ × ℚ) (limit : Nat) (alpha : ℚ) (rank_n : Nat)
    (wd : Bool) (f : MetaDoc)
    (h : (rel_query env s v vr ve dr limit f).length ≤ rank_n) :
    (search_relationships_weight env s v vr ve dr limit alpha rank_n wd f).rels.toFinset =
      ((rel_query env s v vr ve dr limit f).map Prod.fst).toFinset ∧
    (search_relationships_weight env s v vr ve dr limit alpha rank_n wd f).ents =
      endpoint_set s (set_of ((rel_query env s v vr ve dr limit f).map Prod.fst)) ∧
    (search_relationships_weight env s v vr ve dr limit alpha rank_n wd f).degree_fetches =
      0 := by
  simp only [search_relationships_weight, if_pos h]
  exact ⟨set_of_toFinset _, by trivial, by trivial⟩

/-- C9: with neither a query text nor an embedding, `retrieve_with_weight`
emits every stored entity and every stored relationship, whatever the depth. -/
theorem no_query_full_scan (env : Env V) (s : Store V) (depth : Nat)
    (include_meta with_degree with_chunks : Bool) (f : MetaDoc) :
    (retrieve_with_weight env s none none depth include_meta with_degree
      with_chunks f).1.length = s.entities.length ∧
    (retrieve_with_weight env s none none depth include_meta with_degree
      with_chunks f).2.1.length = s.relationships.length := by
  simp [retrieve_with_weight]

/-- C10: `save` returns immediately, writing nothing, whenever the candidate
entity collection or the candidate relationship collection is empty — in
particular a batch with entities but no relationships persists none of its
entities. -/
theorem save_empty_noop (env : Env V) (thr : ℚ) (s : Store V) (chunk_id : String)
    (entities_df : List EntityRow) (relationships_df : List RelRow)
    (h : entities_df = [] ∨ relationships_df = []) :
    save env thr s chunk_id entities_df relationships_df = .ok s := by
  unfold save
  rw [if_pos h]

/-- A small concrete embedder for witnesses: the vector is an integer code of
the description. -/
def embedT (name description : String) : Int :=
  if description = "a" then 0
  else if description = "b" then 1
  else if description = "m" then 100
  else 50

/-- The rational 1/100, as a normalised fraction literal. -/
def q_hundredth : ℚ := Rat.mk' 1 100 (by norm_num) (by norm_num)

/-- The rational 3/2, as a normalised fraction literal. -/
def q_three_halves : ℚ := Rat.mk' 3 2 (by norm_num) (by norm_num)

/-- The rational 1/2, as a normalised fraction literal. -/
def q_half : ℚ := Rat.mk' 1 2 (by norm_num) (by norm_num)

/-- A small concrete cosine-distance stand-in with values in `[0, 2]`,
`distT v v = 0`, and symmetry: the code pairs 0/1 are a hundredth apart, the
pair 0/150 lies at 3/2 (a distance cosine admits but the spec's unit range
does not), and all other pairs are at distance 1. -/
def distT (x y : Int) : ℚ :=
  if x = y then 0
  else if x + y = 1 then q_hundredth
  else if x + y = 150 then q_three_halves
  else 1

/-- A concrete environment over integer vectors, parameterised by the merge
decision. -/
def mkEnvT (md : Entity → Entity → MergeResult) : Env Int :=
  { embed_entity_description := embedT
    embed_entity_metadata := fun _ => 0
    embed_relationship_description := fun _ _ _ _ _ => 0
    embed_query := fun _ => 0
    dist := distT
    merge_decide := md
    calc_score := fun d _ _ _ _ _ => 1 - d }

/-- Environment whose merge decider always declines. -/
def envDecl : Env Int := mkEnvT (fun _ _ => .declined)

/-- Environment whose merge decider always raises. -/
def envFail : Env Int := mkEnvT (fun _ _ => .failed)

/-- Environment whose merge decider always merges into description `"m"` with
empty metadata. -/
def envMerge : Env Int := mkEnvT (fun _ _ => .merged "m" [])

/-- The default distance threshold: similarity 0.9, hence distance below 0.1. -/
def thrT : ℚ := Rat.mk' 1 10 (by norm_num) (by norm_num)

/-- The empty store. -/
def store0 : Store Int :=
  { entities := [], relationships := [], chunks := [],
    next_entity_id := 0, next_relationship_id := 0 }

/-- A stored Original entity named `X` described by `"a"`. -/
def entA : DBEntity Int :=
  { id := 0, name := "X", description := "a", description_vec := 0, meta := [],
    meta_vec := 0, synopsis_info := none, entity_type := .original }

/-- A store holding only `entA`. -/
def storeA : Store Int :=
  { entities := [entA], relationships := [], chunks := [],
    next_entity_id := 1, next_relationship_id := 0 }

/-- A candidate sharing `entA`'s name with a near-duplicate description `"b"`
(`distT` gives distance 1/100 < 1/10) and different metadata. -/
def candB : Entity :=
  { name := "X", description := "b", metadata := [("k", "v")] }

def entY : DBEntity Int :=
  { id := 1, name := "Y", description := "c", description_vec := 50, meta := [],
    meta_vec := 0, synopsis_info := none, entity_type := .original }

/-- A stored relationship between `entA` and `entY`. -/
def relAY : DBRelationship Int :=
  { id := 0, source_entity_id := 0, target_entity_id := 1, description := "uses",
    description_vec := 0, meta := [("chunk_id", "c1")], weight := 5,
    document_id := none, chunk_id := some "c1", last_modified_at := 0 }

/-- A store with two entities and one relationship. -/
def storeR : Store Int :=
  { entities := [entA, entY], relationships := [relAY], chunks := [],
    next_entity_id := 2, next_relationship_id := 1 }

theorem search_short_circuit_w :
    (search_relationships_weight envDecl storeR 0 ∅ ∅ ((0 : ℚ), 1) 100 1 10 false
      []).rels.toFinset =
    ((rel_query envDecl storeR 0 ∅ ∅ ((0 : ℚ), 1) 100 []).map Prod.fst).toFinset :=
  (search_short_circuit envDecl storeR 0 ∅ ∅ ((0 : ℚ), 1) 100 1 10 false []
    (by decide)).1

/-- A batch entity row declaring entity `A`. -/
def rowA : EntityRow := { name := "A", description := "a", meta := [] }

theorem save_empty_noop_w :
    save envDecl thrT store0 "c1" [rowA] [] = .ok store0 :=
  save_empty_noop envDecl thrT store0 "c1" [rowA] [] (Or.inr rfl)

theorem stage_mem {c : Prop} [Decidable c] (l : List α) (g : α → Bool) (a : α)
    (h : a ∈ if c then l else l.filter g) : a ∈ l ∧ (¬c → g a = true) := by
  split at h
  case isTrue hc => exact ⟨h, fun hnc => absurd hc hnc⟩
  case isFalse hc =>
    rw [List.mem_filter] at h
    exact ⟨h.1, fun _ => h.2⟩

theorem mem_foldl_filter {β : Type} (g : β → α → Bool) (l : List β) (xs : List α)
    (a : α) (h : a ∈ l.foldl (fun acc kv => acc.filter (g kv)) xs) :
    a ∈ xs ∧ ∀ kv ∈ l, g kv a = true := by
  induction l generalizing xs with
  | nil => simpa using h
  | cons kv rest ih =>
    simp only [List.foldl_cons] at h
    obtain ⟨h1, h2⟩ := ih (xs.filter (g kv)) h
    rw [List.mem_filter] at h1
    refine ⟨h1.1, ?_⟩
    intro z hz
    rcases List.mem_cons.mp hz with hzeq | hz'
    · rw [hzeq]; exact h1.2
    · exact h2 z hz'

theorem candidate_rows_mem (env : Env V) (s : Store V) (v : V) (limit : Nat)
    (p : DBRelationship V × ℚ) (h : p ∈ candidate_rows env s v limit) :
    p.1 ∈ s.relationships ∧ p.2 = env.dist p.1.description_vec v := by
  unfold candidate_rows at h
  have h1 := List.take_subset _ _ h
  rw [mem_sort_asc] at h1
  obtain ⟨r, hr, heq⟩ := List.mem_map.mp h1
  rw [← heq]
  exact ⟨hr, rfl⟩

theorem rel_query_length_le (env : Env V) (s : Store V) (v : V)
    (vr ve : Finset Nat) (dr : ℚ × ℚ) (limit : Nat) (f : MetaDoc) :
    (rel_query env s v vr ve dr limit f).length ≤ limit := by
  simp only [rel_query]
  split
  case isTrue h => exact List.length_take_le _ _
  case isFalse h => exact List.length_take_le _ _

theorem alias_candidate_rows_mem (env : Env V) (s : Store V) (v : V)
    (dr : ℚ × ℚ) (limit : Nat) (f : MetaDoc) (p : DBRelationship V × ℚ)
    (h : p ∈ alias_candidate_rows env s v dr limit f) :
    p ∈ candidate_rows env s v limit ∧ 0 ≤ p.1.weight ∧
    (∀ kv ∈ f, p.1.meta.get kv.1 = some kv.2) ∧
    (dr ≠ ((0 : ℚ), 1) → dr.1 ≤ p.2 ∧ p.2 ≤ dr.2) := by
  simp only [alias_candidate_rows] at h
  rw [mem_sort_asc] at h
  obtain ⟨h2, hrange⟩ := stage_mem _ _ _ h
  obtain ⟨h1, hmeta⟩ := mem_foldl_filter _ f _ p h2
  rw [List.mem_filter] at h1
  refine ⟨h1.1, by simpa using h1.2, ?_, ?_⟩
  · intro kv hkv
    have hb := hmeta kv hkv
    simpa using hb
  · intro hdr
    have hb := hrange hdr
    simpa using hb

theorem rel_query_mem (env : Env V) (s : Store V) (v : V) (vr ve : Finset Nat)
    (dr : ℚ × ℚ) (limit : Nat) (f : MetaDoc) (p : DBRelationship V × ℚ)
    (h : p ∈ rel_query env s v vr ve dr limit f) :
    p ∈ alias_candidate_rows env s v dr limit f := by
  simp only [rel_query] at h
  split at h
  case isTrue hvv => exact List.take_subset _ _ h
  case isFalse hvv =>
    have h2 := List.take_subset _ _ h
    rw [List.mem_bind] at h2
    obtain ⟨q, hq, hrep⟩ := h2
    rw [List.eq_of_mem_replicate hrep]
    exact hq

theorem search_mem_rel_query (env : Env V) (s : Store V) (v : V)
    (vr ve : Finset Nat) (dr : ℚ × ℚ) (limit : Nat) (alpha : ℚ) (rank_n : Nat)
    (wd : Bool) (f : MetaDoc) (r : DBRelationship V)
    (hr : r ∈ (search_relationships_weight env s v vr ve dr limit alpha rank_n wd f).rels) :
    ∃ d, (r, d) ∈ rel_query env s v vr ve dr limit f := by
  simp only [search_relationships_weight] at hr
  split at hr
  case isTrue h =>
    rw [mem_set_of] at hr
    obtain ⟨p, hp, heq⟩ := List.mem_map.mp hr
    exact ⟨p.2, by rw [← heq]; simpa using hp⟩
  case isFalse h =>
    rw [mem_set_of] at hr
    obtain ⟨q, hq, heq⟩ := List.mem_map.mp hr
    have hq' := List.take_subset _ _ hq
    rw [mem_sort_desc] at hq'
    obtain ⟨p, hp, heq2⟩ := List.mem_map.mp hq'
    refine ⟨p.2, ?_⟩
    have : q.1 = p.1 := by rw [← heq2]
    rw [← heq, this]
    simpa using hp

theorem search_rels_length_le_limit (env : Env V) (s : Store V) (v : V)
    (vr ve : Finset Nat) (dr : ℚ × ℚ) (limit : Nat) (alpha : ℚ) (rank_n : Nat)
    (wd : Bool) (f : MetaDoc) :
    (search_relationships_weight env s v vr ve dr limit alpha rank_n wd f).rels.length ≤
      limit := by
  have hq := rel_query_length_le env s v vr ve dr limit f
  simp only [search_relationships_weight]
  split
  case isTrue h => exact le_trans (set_of_map_length_le _ _ (le_refl _)) hq
  case isFalse h =>
    exact le_trans (set_of_take_map_length_le _ rank_n) (by omega)

/-- C7 (amended): every relationship returned by `search_relationships_weight`
has non-negative weight, metadata matching every filter pair by equality, and
is drawn from the `limit * 10` relationships nearest to the query embedding,
with at most `limit` rows surviving the outer query; the embedding-distance
bound to `distance_range` holds whenever `distance_range` differs from the
full range `(0, 1)` — for the default full range the source skips the range
filter, so distances above 1 can be returned.  The claimed
`visited_relationships` exclusion and `visited_entities` frontier restriction
are dropped: the source writes those conditions against the base
`DBRelationship` table instead of the subquery alias (lines 803-804 and
820-821), turning them into a cross join that excludes no candidate. -/
theorem search_result_filters (env : Env V) (s : Store V) (v : V)
    (vr ve : Finset Nat) (dr : ℚ × ℚ) (limit : Nat) (alpha : ℚ) (rank_n : Nat)
    (wd : Bool) (f : MetaDoc) (r : DBRelationship V)
    (hr : r ∈ (search_relationships_weight env s v vr ve dr limit alpha rank_n wd f).rels) :
    0 ≤ r.weight ∧
    (∀ kv ∈ f, r.meta.get kv.1 = some kv.2) ∧
    (dr ≠ ((0 : ℚ), 1) →
      dr.1 ≤ env.dist r.description_vec v ∧ env.dist r.description_vec v ≤ dr.2) ∧
    r ∈ (candidate_rows env s v limit).map Prod.fst ∧
    (search_relationships_weight env s v vr ve dr limit alpha rank_n wd f).rels.length ≤
      limit := by
  obtain ⟨d, hd⟩ := search_mem_rel_query env s v vr ve dr limit alpha rank_n wd f r hr
  have halias := rel_query_mem env s v vr ve dr limit f (r, d) hd
  obtain ⟨hcand, hw, hmeta, hrange⟩ :=
    alias_candidate_rows_mem env s v dr limit f (r, d) halias
  have hdist : d = env.dist r.description_vec v :=
    (candidate_rows_mem env s v limit (r, d) hcand).2
  refine ⟨hw, hmeta, ?_, ?_, ?_⟩
  · intro hdr
    have hb := hrange hdr
    rw [hdist] at hb
    exact hb
  · exact List.mem_map.mpr ⟨(r, d), hcand, rfl⟩
  · exact search_rels_length_le_limit env s v vr ve dr limit alpha rank_n wd f

/-- A stored relationship at cosine distance 3/2 from the zero query vector. -/
def relFar : DBRelationship Int :=
  { id := 1, source_entity_id := 0, target_entity_id := 1, description := "far",
    description_vec := 150, meta := [], weight := 0, document_id := none,
    chunk_id := none, last_modified_at := 0 }

/-- A stored relationship at distance 0 from the zero query vector. -/
def relNear : DBRelationship Int :=
  { id := 0, source_entity_id := 0, target_entity_id := 1, description := "near",
    description_vec := 0, meta := [], weight := 0, document_id := none,
    chunk_id := none, last_modified_at := 0 }

/-- A store holding `relFar` and `relNear` with their endpoints. -/
def storeFar : Store Int :=
  { entities := [entA, entY], relationships := [relFar, relNear], chunks := [],
    next_entity_id := 2, next_relationship_id := 2 }

/-- C7 counterexample: one concrete call refuting two of the claimed filters
at once.  With `visited_relationships = {1}` the base-table condition cross
joins (one unvisited base row exists), so `relFar` — whose id 1 is visited —
is still returned; and with the default `distance_range = (0.0, 1.0)` the
range filter is skipped, so `relFar`'s embedding distance 3/2 lies outside
`[0, 1]`. -/
theorem search_visited_and_range_cex :
    relFar ∈ (search_relationships_weight envDecl storeFar 0 ({1} : Finset Nat) ∅
      ((0 : ℚ), 1) 100 1 10 false []).rels ∧
    relFar.id ∈ ({1} : Finset Nat) ∧
    ¬(envDecl.dist relFar.description_vec 0 ≤ (1 : ℚ)) := by
  refine ⟨by decide, by decide, by decide⟩

theorem search_result_filters_w :
    (0 : Int) ≤ relAY.weight ∧
    relAY ∈ (candidate_rows envDecl storeR 0 100).map Prod.fst :=
  (fun h => ⟨h.1, h.2.2.2.1⟩)
    (search_result_filters envDecl storeR 0 ∅ ∅ ((0 : ℚ), q_half) 100 1 10 false []
      relAY (by decide))

theorem argminBy_mem (f : α → ℚ) (l : List α) (y : α) (h : argminBy f l = some y) :
    y ∈ l := by
  induction l generalizing y with
  | nil => simp [argminBy] at h
  | cons x xs ih =>
    simp only [argminBy] at h
    cases hm : argminBy f xs with
    | none =>
      rw [hm] at h
      dsimp only at h
      cases h
      exact List.mem_cons_self _ _
    | some z =>
      rw [hm] at h
      dsimp only at h
      split at h
      case isTrue hlt =>
        cases h
        exact List.mem_cons_of_mem _ (ih _ hm)
      case isFalse hlt =>
        cases h
        exact List.mem_cons_self _ _

theorem argminBy_none (f : α → ℚ) (l : List α) (h : argminBy f l = none) :
    l = [] := by
  cases l with
  | nil => rfl
  | cons x xs =>
    simp only [argminBy] at h
    cases hm : argminBy f xs with
    | none =>
      rw [hm] at h
      dsimp only at h
      cases h
    | some z =>
      rw [hm] at h
      dsimp only at h
      split at h <;> cases h

theorem argminBy_le (f : α → ℚ) (l : List α) (y : α) (h : argminBy f l = some y) :
    ∀ x ∈ l, f y ≤ f x := by
  induction l generalizing y with
  | nil => intro x hx; cases hx
  | cons x xs ih =>
    intro z hz
    simp only [argminBy] at h
    cases hm : argminBy f xs with
    | none =>
      rw [hm] at h
      dsimp only at h
      cases h
      rcases List.mem_cons.mp hz with rfl | hz'
      · exact le_refl _
      · rw [argminBy_none f xs hm] at hz'
        cases hz'
    | some w =>
      rw [hm] at h
      dsimp only at h
      split at h
      case isTrue hlt =>
        cases h
        rcases List.mem_cons.mp hz with rfl | hz'
        · exact le_of_lt hlt
        · exact ih _ hm z hz'
      case isFalse hlt =>
        cases h
        rcases List.mem_cons.mp hz with rfl | hz'
        · exact le_refl _
        · exact le_trans (not_lt.mp hlt) (ih _ hm z hz')

theorem argminBy_strict (f : α → ℚ) (l : List α) (m : α) (hm : m ∈ l)
    (hlt : ∀ x ∈ l, x ≠ m → f m < f x) : argminBy f l = some m := by
  induction l with
  | nil => cases hm
  | cons x xs ih =>
    by_cases hxm : x = m
    · subst hxm
      simp only [argminBy]
      cases hz : argminBy f xs with
      | none => rfl
      | some z =>
        have hzmem := argminBy_mem f xs z hz
        dsimp only
        by_cases hzm : z = x
        · subst hzm
          rw [if_neg (lt_irrefl _)]
        · have hfz := hlt z (List.mem_cons_of_mem _ hzmem) hzm
          rw [if_neg (not_lt.mpr (le_of_lt hfz))]
    · have hm' : m ∈ xs := by
        rcases List.mem_cons.mp hm with rfl | hm2 <;> simp_all
      have hlt' : ∀ x ∈ xs, x ≠ m → f m < f x :=
        fun z hz hzm => hlt z (List.mem_cons_of_mem _ hz) hzm
      have harg := ih hm' hlt'
      simp only [argminBy]
      rw [harg]
      dsimp only
      rw [if_pos (hlt x (List.mem_cons_self _ _) hxm)]

theorem nearest_entity_mem (env : Env V) (s : Store V) (name : String)
    (etype : EntityType) (vec : V) (db : DBEntity V)
    (h : nearest_entity env s name etype vec = some db) :
    db ∈ s.entities ∧ db.name = name ∧ db.entity_type = etype := by
  unfold nearest_entity at h
  have hm := argminBy_mem _ _ _ h
  rw [List.mem_filter] at hm
  obtain ⟨h1, h2⟩ := hm
  simp only [Bool.and_eq_true, beq_iff_eq] at h2
  exact ⟨h1, h2.1, h2.2⟩

theorem nearest_entity_le (env : Env V) (s : Store V) (name : String)
    (etype : EntityType) (vec : V) (db : DBEntity V)
    (h : nearest_entity env s name etype vec = some db) :
    ∀ e ∈ s.entities, e.name = name → e.entity_type = etype →
      env.dist db.description_vec vec ≤ env.dist e.description_vec vec := by
  intro e he hn ht
  refine argminBy_le _ _ _ h e ?_
  rw [List.mem_filter]
  exact ⟨he, by simp [hn, ht]⟩

/-- C1 (amended): when the nearest same-name Original entity is within the
threshold, the candidate is not an exact duplicate, and the merge decision
declines, `get_or_create_entity` leaves the near-duplicate row untouched but
does create a new entity row for the candidate (the source falls through to
the creation block instead of returning the existing row). -/
theorem merge_decline_creates_row (env : Env V) (thr : ℚ) (s : Store V)
    (entity : Entity) (db : DBEntity V)
    (hsyn : entity.is_synopsis = false)
    (hnear : nearest_entity env s entity.name EntityType.original
      (env.embed_entity_description entity.name entity.description) = some db)
    (hdist : env.dist db.description_vec
      (env.embed_entity_description entity.name entity.description) < thr)
    (hneq : ¬(db.description = entity.description ∧ db.name = entity.name ∧
      db.meta = entity.metadata))
    (hdecl : env.merge_decide (Entity.mk db.name db.description db.meta none false)
      entity = .declined) :
    get_or_create_entity env thr s entity =
      .ok (create_entity_row env s entity
        (env.embed_entity_description entity.name entity.description)
        EntityType.original) ∧
    (create_entity_row env s entity
      (env.embed_entity_description entity.name entity.description)
      EntityType.original).2.entities =
      s.entities ++ [(create_entity_row env s entity
        (env.embed_entity_description entity.name entity.description)
        EntityType.original).1] := by
  refine ⟨?_, rfl⟩
  unfold get_or_create_entity
  simp only [hsyn, Bool.false_eq_true, if_false]
  rw [hnear]
  dsimp only
  rw [if_pos hdist, if_neg hneq, if_pos trivial, hdecl]

theorem merge_decline_creates_row_w :
    get_or_create_entity envDecl thrT storeA candB =
      .ok (create_entity_row envDecl storeA candB
        (envDecl.embed_entity_description candB.name candB.description)
        EntityType.original) :=
  (merge_decline_creates_row envDecl thrT storeA candB entA rfl (by decide) (by decide)
    (by decide) rfl).1

/-- C1 counterexample: `storeA` holds one Original entity within the threshold
of candidate `candB` (a near-duplicate that is not an exact duplicate), the
merge decision declines, and yet resolving `candB` grows the entity table from
one row to two — a new row is created, contrary to the claim. -/
theorem merge_decline_creates_row_cex :
    envDecl.dist entA.description_vec
      (envDecl.embed_entity_description candB.name candB.description) < thrT ∧
    storeA.entities.length = 1 ∧
    (run_resolve envDecl thrT storeA candB).entities.length = 2 := by
  refine ⟨by decide, rfl, by decide⟩

/-- C2 (amended): when the merge-decision call raises, the error propagates
out of `get_or_create_entity` — the source wraps `_try_merge_entities` in no
exception handler, so a decider failure is not downgraded to "no merge". -/
theorem merge_error_propagates (env : Env V) (thr : ℚ) (s : Store V)
    (entity : Entity) (db : DBEntity V)
    (hsyn : entity.is_synopsis = false)
    (hnear : nearest_entity env s entity.name EntityType.original
      (env.embed_entity_description entity.name entity.description) = some db)
    (hdist : env.dist db.description_vec
      (env.embed_entity_description entity.name entity.description) < thr)
    (hneq : ¬(db.description = entity.description ∧ db.name = entity.name ∧
      db.meta = entity.metadata))
    (hfail : env.merge_decide (Entity.mk db.name db.description db.meta none false)
      entity = .failed) :
    get_or_create_entity env thr s entity = .error .decider := by
  unfold get_or_create_entity
  simp only [hsyn, Bool.false_eq_true, if_false]
  rw [hnear]
  dsimp only
  rw [if_pos hdist, if_neg hneq, if_pos trivial, hfail]

theorem merge_error_propagates_w :
    get_or_create_entity envFail thrT storeA candB = .error .decider :=
  merge_error_propagates envFail thrT storeA candB entA rfl (by decide) (by decide)
    (by decide) rfl

/-- C2 counterexample: a failing merge decider surfaces as an error from
`get_or_create_entity` at a concrete near-duplicate input, refuting "caught
locally and never propagated to the caller". -/
theorem merge_error_propagates_cex :
    is_decider_error (get_or_create_entity envFail thrT storeA candB) = true := by
  decide

theorem goce_far_create (env : Env V) (thr : ℚ) (s : Store V) (entity : Entity)
    (hsyn : entity.is_synopsis = false)
    (hfar : ∀ e ∈ s.entities, e.name = entity.name →
      e.entity_type = EntityType.original →
      thr ≤ env.dist e.description_vec
        (env.embed_entity_description entity.name entity.description)) :
    get_or_create_entity env thr s entity =
      .ok (create_entity_row env s entity
        (env.embed_entity_description entity.name entity.description)
        EntityType.original) := by
  unfold get_or_create_entity
  simp only [hsyn, Bool.false_eq_true, if_false]
  cases hnear : nearest_entity env s entity.name EntityType.original
      (env.embed_entity_description entity.name entity.description) with
  | none => rfl
  | some db =>
    dsimp only
    obtain ⟨hmem, hname, htype⟩ := nearest_entity_mem env s _ _ _ db hnear
    have hge := hfar db hmem hname htype
    rw [if_neg (not_lt.mpr hge)]

/-- C3 (amended): the deduplication guarantee that actually holds at creation:
when every stored same-name Original row is at distance at least the threshold
from the candidate's embedding, `get_or_create_entity` inserts a fresh row
whose embedding keeps that separation from every pre-existing same-name
Original row.  The global two-Original-rows invariant itself is refuted by the
decline path (see the counterexample). -/
theorem create_far_from_same_name (env : Env V) (thr : ℚ) (s : Store V)
    (entity : Entity)
    (hsyn : entity.is_synopsis = false)
    (hfar : ∀ e ∈ s.entities, e.name = entity.name →
      e.entity_type = EntityType.original →
      thr ≤ env.dist e.description_vec
        (env.embed_entity_description entity.name entity.description)) :
    get_or_create_entity env thr s entity =
      .ok (create_entity_row env s entity
        (env.embed_entity_description entity.name entity.description)
        EntityType.original) ∧
    ∀ e ∈ s.entities, e.name = entity.name →
      e.entity_type = EntityType.original →
      thr ≤ env.dist e.description_vec
        ((create_entity_row env s entity
          (env.embed_entity_description entity.name entity.description)
          EntityType.original).1.description_vec) := by
  refine ⟨goce_far_create env thr s entity hsyn hfar, ?_⟩
  intro e he hn ht
  exact hfar e he hn ht

/-- A candidate sharing `entA`'s name whose description embeds far from it. -/
def candFar : Entity := { name := "X", description := "z", metadata := [] }

theorem create_far_from_same_name_w :
    get_or_create_entity envDecl thrT storeA candFar =
      .ok (create_entity_row envDecl storeA candFar
        (envDecl.embed_entity_description candFar.name candFar.description)
        EntityType.original) :=
  (create_far_from_same_name envDecl thrT storeA candFar rfl (by decide)).1

/-- The first candidate of the counterexample run: `X` described by `"a"`. -/
def candA : Entity := { name := "X", description := "a", metadata := [] }

/-- C3 counterexample: starting from the empty store, resolving `candA` and
then the near-duplicate `candB` (merge decision declines) leaves two Original
rows named `X` whose embeddings are within the threshold — the claimed
invariant fails on a state reachable by two `resolve_or_create` calls. -/
theorem dedup_invariant_cex :
    dedup_ok envDecl thrT
      (run_resolve envDecl thrT (run_resolve envDecl thrT store0 candA) candB) = false ∧
    (run_resolve envDecl thrT
      (run_resolve envDecl thrT store0 candA) candB).entities.length = 2 := by
  refine ⟨by decide, by decide⟩

theorem goce_exact_dup (env : Env V) (thr : ℚ) (s : Store V) (entity : Entity)
    (db : DBEntity V)
    (hsyn : entity.is_synopsis = false)
    (hnear : nearest_entity env s entity.name EntityType.original
      (env.embed_entity_description entity.name entity.description) = some db)
    (hdist : env.dist db.description_vec
      (env.embed_entity_description entity.name entity.description) < thr)
    (heq : db.description = entity.description ∧ db.name = entity.name ∧
      db.meta = entity.metadata) :
    get_or_create_entity env thr s entity = .ok (db, s) := by
  unfold get_or_create_entity
  simp only [hsyn, Bool.false_eq_true, if_false]
  rw [hnear]
  dsimp only
  rw [if_pos hdist, if_pos heq]

/-- C4 (amended): inserting the same `(name, description, metadata)` Original
draft twice is idempotent, provided no same-name Original row lies within the
threshold beforehand (so the first call takes the creation path rather than
the merge path), the embedder is deterministic with `dist v v = 0`, the
threshold is positive, and stored rows carry the embedding of their own text.
Both calls return the same row, the second call changes nothing, and exactly
one exactly-matching row exists afterwards. -/
theorem double_insert_idempotent (env : Env V) (thr : ℚ) (s : Store V)
    (entity : Entity)
    (hsyn : entity.is_synopsis = false)
    (h0 : env.dist (env.embed_entity_description entity.name entity.description)
      (env.embed_entity_description entity.name entity.description) = 0)
    (hthr : 0 < thr)
    (hwf : ∀ e ∈ s.entities, e.description_vec =
      env.embed_entity_description e.name e.description)
    (hfar : ∀ e ∈ s.entities, e.name = entity.name →
      e.entity_type = EntityType.original →
      thr ≤ env.dist e.description_vec
        (env.embed_entity_description entity.name entity.description)) :
    ∃ db s1,
      get_or_create_entity env thr s entity = .ok (db, s1) ∧
      get_or_create_entity env thr s1 entity = .ok (db, s1) ∧
      s1.entities = s.entities ++ [db] ∧
      count_exact s entity = 0 ∧
      count_exact s1 entity = 1 := by
  have hzero : count_exact s entity = 0 := by
    unfold count_exact
    rw [List.length_eq_zero]
    rw [List.filter_eq_nil_iff]
    intro e he
    simp only [Bool.and_eq_true, beq_iff_eq, decide_eq_true_eq, not_and]
    intro h1 ht
    obtain ⟨⟨hn, hd⟩, hm⟩ := h1
    have hvec := hwf e he
    rw [hn, hd] at hvec
    have := hfar e he hn ht
    rw [hvec, h0] at this
    exact absurd this (not_le.mpr hthr)
  refine ⟨mk_db_entity env s entity
    (env.embed_entity_description entity.name entity.description) EntityType.original,
    (create_entity_row env s entity
      (env.embed_entity_description entity.name entity.description)
      EntityType.original).2, ?_, ?_, rfl, hzero, ?_⟩
  · exact goce_far_create env thr s entity hsyn hfar
  · have hnear2 : nearest_entity env
        (create_entity_row env s entity
          (env.embed_entity_description entity.name entity.description)
          EntityType.original).2 entity.name EntityType.original
        (env.embed_entity_description entity.name entity.description) =
        some (mk_db_entity env s entity
          (env.embed_entity_description entity.name entity.description)
          EntityType.original) := by
      unfold nearest_entity
      apply argminBy_strict
      · rw [List.mem_filter]
        constructor
        · show _ ∈ s.entities ++ [_]
          exact List.mem_append_right _ (List.mem_singleton.mpr rfl)
        · simp [mk_db_entity]
      · intro x hx hxne
        rw [List.mem_filter] at hx
        obtain ⟨hxmem, hxpred⟩ := hx
        simp only [Bool.and_eq_true, beq_iff_eq] at hxpred
        have hxs : x ∈ s.entities := by
          rcases List.mem_append.mp hxmem with hxs | hxdb
          · exact hxs
          · exact absurd (List.mem_singleton.mp hxdb) hxne
        have hxfar := hfar x hxs hxpred.1 hxpred.2
        have hmdb : env.dist (mk_db_entity env s entity
            (env.embed_entity_description entity.name entity.description)
            EntityType.original).description_vec
            (env.embed_entity_description entity.name entity.description) = 0 := h0
        rw [hmdb]
        exact lt_of_lt_of_le hthr hxfar
    have hd2 : env.dist (mk_db_entity env s entity
        (env.embed_entity_description entity.name entity.description)
        EntityType.original).description_vec
        (env.embed_entity_description entity.name entity.description) < thr := by
      show env.dist (env.embed_entity_description entity.name entity.description)
        (env.embed_entity_description entity.name entity.description) < thr
      rw [h0]
      exact hthr
    exact goce_exact_dup env thr
      (create_entity_row env s entity
        (env.embed_entity_description entity.name entity.description)
        EntityType.original).2 entity
      (mk_db_entity env s entity
        (env.embed_entity_description entity.name entity.description)
        EntityType.original)
      hsyn hnear2 hd2 ⟨rfl, rfl, rfl⟩
  · have hz := hzero
    unfold count_exact at hz
    have hsplit : (create_entity_row env s entity
        (env.embed_entity_description entity.name entity.description)
        EntityType.original).2.entities =
        s.entities ++ [mk_db_entity env s entity
          (env.embed_entity_description entity.name entity.description)
          EntityType.original] := rfl
    unfold count_exact
    rw [hsplit, List.filter_append, List.length_append, hz]
    simp [mk_db_entity]

theorem double_insert_idempotent_w :
    ∃ db s1,
      get_or_create_entity envDecl thrT store0 candA = .ok (db, s1) ∧
      get_or_create_entity envDecl thrT s1 candA = .ok (db, s1) ∧
      s1.entities = store0.entities ++ [db] ∧
      count_exact store0 candA = 0 ∧
      count_exact s1 candA = 1 :=
  double_insert_idempotent envDecl thrT store0 candA rfl (by decide) (by decide)
    (by decide) (by decide)

/-- C4 counterexample: with a pre-existing near-duplicate and a merging
decider, the first call updates the stored row (returning id 0) and re-embeds
it far from the candidate, so the second identical call finds no close match
and creates a fresh row (returning id 1) — the two calls return different
entity ids, refuting the unconditional double-insert idempotency claim. -/
theorem double_insert_cex :
    resolve_id envMerge thrT storeA candB ≠
      resolve_id envMerge thrT (run_resolve envMerge thrT storeA candB) candB := by
  decide

theorem goce_preserves_relationships (env : Env V) (thr : ℚ) (s : Store V)
    (e : Entity) (db : DBEntity V) (s' : Store V)
    (h : get_or_create_entity env thr s e = .ok (db, s')) :
    s'.relationships = s.relationships := by
  unfold get_or_create_entity at h
  dsimp only at h
  repeat' split at h
  all_goals
    first
    | exact Except.noConfusion h
    | (simp only [create_entity_row, update_entity, Except.ok.injEq, Prod.mk.injEq] at h
       rw [← h.2])

theorem focr_preserves_relationships (env : Env V) (thr : ℚ) (s : Store V)
    (m : EntitiesNameMap) (name description : String) (e' : DBEntity V)
    (s' : Store V)
    (h : find_or_create_entity_for_relation env thr s m name description =
      .ok (e', s')) :
    s'.relationships = s.relationships := by
  unfold find_or_create_entity_for_relation at h
  dsimp only at h
  split at h
  case h_1 =>
    simp only [Except.ok.injEq, Prod.mk.injEq] at h
    rw [← h.2]
  case h_2 =>
    exact goce_preserves_relationships env thr s _ e' s' h

theorem resolve_rows_preserves_relationships (env : Env V) (thr : ℚ)
    (rows : List EntityRow) (s : Store V) (m : EntitiesNameMap) (s' : Store V)
    (m' : EntitiesNameMap)
    (h : resolve_entity_rows env thr rows s m = .ok (s', m')) :
    s'.relationships = s.relationships := by
  induction rows generalizing s m with
  | nil =>
    simp only [resolve_entity_rows, Except.ok.injEq, Prod.mk.injEq] at h
    rw [← h.1]
  | cons row rest ih =>
    simp only [resolve_entity_rows] at h
    split at h
    case h_1 => cases h
    case h_2 db s1 hres =>
      rw [ih s1 _ h]
      exact goce_preserves_relationships env thr s _ db s1 hres

theorem create_relationship_keeps (env : Env V) (s : Store V)
    (se te : DBEntity V) (d : String) (meta : MetaDoc) :
    (∀ r ∈ s.relationships,
      r ∈ (create_relationship env s se te d meta).relationships) ∧
    ∃ r ∈ (create_relationship env s se te d meta).relationships,
      r.meta = meta := by
  constructor
  · intro r hr
    simp only [create_relationship]
    exact List.mem_append_left _ hr
  · exact ⟨⟨s.next_relationship_id, se.id, te.id, d,
      env.embed_relationship_description se.name se.description te.name
        te.description d, meta, 0, meta.get "document_id", meta.get "chunk_id", 0⟩,
      by simp [create_relationship], rfl⟩

theorem ingest_rel_rows_adds (env : Env V) (thr : ℚ) (rows : List RelRow)
    (s : Store V) (m : EntitiesNameMap) (s' : Store V)
    (h : ingest_relationship_rows env thr rows s m = .ok s') :
    (∀ r ∈ s.relationships, r ∈ s'.relationships) ∧
    (∀ row ∈ rows, ∃ r ∈ s'.relationships, r.meta = row.meta) := by
  induction rows generalizing s m with
  | nil =>
    simp only [ingest_relationship_rows, Except.ok.injEq] at h
    subst h
    exact ⟨fun r hr => hr, fun row hrow => absurd hrow (List.not_mem_nil _)⟩
  | cons row rest ih =>
    simp only [ingest_relationship_rows] at h
    split at h
    case h_1 => cases h
    case h_2 se s1 hfind1 =>
      split at h
      case h_1 => cases h
      case h_2 te s2 hfind2 =>
        obtain ⟨hmono, hmeta⟩ := ih _ _ h
        have h1 := focr_preserves_relationships env thr s m _ _ se s1 hfind1
        have h2 := focr_preserves_relationships env thr s1 m _ _ te s2 hfind2
        have hck := create_relationship_keeps env s2 se te row.relationship_desc row.meta
        constructor
        · intro r hr
          refine hmono r (hck.1 r ?_)
          rw [h2, h1]
          exact hr
        · intro row2 hrow2
          rcases List.mem_cons.mp hrow2 with hre | hre
          · obtain ⟨r0, hr0, hr0m⟩ := hck.2
            exact ⟨r0, hmono r0 hr0, by rw [hr0m, hre]⟩
          · exact hmeta row2 hre

/-- A batch relationship row carrying the batch's chunk id in its metadata,
as extractor-produced payloads do. -/
def relRowA : RelRow :=
  { source_entity := "A", source_entity_description := "a",
    target_entity := "A", target_entity_description := "a",
    relationship_desc := "uses", meta := [("chunk_id", "c1")] }

/-- C5: the idempotency guard is dead code for string chunk ids.  `storeR`
already holds a relationship whose `metadata.chunk_id` is `"c1"`, yet
`save("c1", ...)` does not return immediately: line 209 compares the
JSON-quoted cast of `meta["chunk_id"]` with the plain `str(chunk_id)`, which
never match, so the batch is ingested again — the relationship count grows
from 1 to 2, contradicting the claim and the code's own "already exists ...,
skip" log message. -/
theorem save_guard_dead :
    (∃ r ∈ storeR.relationships, r.meta.get "chunk_id" = some "c1") ∧
    storeR.relationships.length = 1 ∧
    (run_save envDecl thrT storeR "c1" [rowA] [relRowA]).relationships.length = 2 := by
  refine ⟨⟨relAY, by decide, by decide⟩, rfl, by decide⟩
